import Mathlib

/-!
Verification of the noise-monitoring ETL core (supabase_common.py,
supabase_backfill_all.py) against its specification.

Shallow embedding conventions:
* Calendar days are integers (days since 1970-01-01); instants are integers
  counting minutes since 1970-01-01T00:00 in the respective frame (local SGT
  wall-clock minutes or UTC minutes).
* The HTTP fetch of `build_rows` is abstracted by a `FetchResult` input: the
  `except` path of the source (transport error, timeout, non-2xx status,
  json decode failure) is `FetchResult.failure`, a successful decode is
  `FetchResult.ok raw`.
* The Supabase client is abstracted by a `store` function from a `StoreCall`
  (table, on_conflict key and payload chunk) to the shape of the response
  `data` field: `some k` when `resp.data` is a list of length `k`, `none`
  when it is not a list.
* Readings are rationals: the claims under study never depend on binary
  float rounding, only on presence/absence and parse failure of the value.
-/

namespace NoiseETL

/-- One device location, as in the `LOCATIONS` entries of supabase_common.py
(`"ID"` / `"Name"` keys). -/
structure Location where
  id : String
  name : String
deriving DecidableEq, Repr

/-- The 13 device locations of supabase_common.py (`LOCATIONS`). -/
def LOCATIONS : List Location := [
  ⟨"15490", "Singapore Sports School"⟩,
  ⟨"16034", "BLK 120 Serangoon North Ave 1"⟩,
  ⟨"16041", "BLK 838 Hougang Central"⟩,
  ⟨"14542", "BLK 558 Jurong West Street 42"⟩,
  ⟨"15725", "Jurong Safra, Block C"⟩,
  ⟨"16032", "AMA KENG SITE"⟩,
  ⟨"16045", "BLK 19 Balam Road"⟩,
  ⟨"15820", "Norcom II Tower 4"⟩,
  ⟨"15821", "Blk 444 Choa Chu Kang Avenue 4"⟩,
  ⟨"15999", "BLK 654B Punggol Drive"⟩,
  ⟨"16026", "BLK 132B Tengah Garden Avenue"⟩,
  ⟨"16004", "BLK 206A Punggol Place"⟩,
  ⟨"16005", "Woodlands 11"⟩]

/-- The `reading` field of one API response entry, as seen by the loop body of
`build_rows`: `absent` covers a missing key and a JSON `null`
(`item.get("reading") is None`), `value v` a field on which `float(...)`
succeeds with value `v`, `unparseable` a field on which `float(...)` raises. -/
inductive Reading where
  | absent
  | value (v : Rat)
  | unparseable
deriving DecidableEq, Repr

/-- The `value = ...` computation of build_rows (supabase_common.py lines
110-115): `None` stays `None`, a successful `float(...)` is kept, a raising
`float(...)` is caught and mapped back to `None`. -/
def parse_reading : Reading → Option Rat
  | .absent => none
  | .value v => some v
  | .unparseable => none

/-- Result of the guarded `requests.get ... r.json()` block of `build_rows`:
`failure` is the `except` path (network error, timeout, non-2xx via
`raise_for_status`, malformed body), `ok raw` a decoded JSON list. -/
inductive FetchResult where
  | failure
  | ok (raw : List Reading)
deriving DecidableEq, Repr

/-- Fixed UTC offset of `ZoneInfo("Asia/Singapore")` in minutes (+08:00, no
daylight saving), valid throughout the epoch range the jobs operate in. -/
def sgtOffsetMinutes : Int := 480

/-- Wall-clock SGT instant (in minutes) of local midnight of calendar day
`day` plus `i` minutes: `datetime.combine(day, time(0,0), tzinfo=SGT) +
timedelta(minutes=i)` in the source. -/
def localMinutes (day : Int) (i : Nat) : Int := day * 1440 + (i : Int)

/-- Conversion of an SGT wall-clock instant to UTC minutes
(`.astimezone(timezone.utc)` in the source). -/
def sgtToUtc (t : Int) : Int := t - sgtOffsetMinutes

/-- One stored Reading Record, as assembled by `build_rows`.
`reading_datetime` and `created_at` hold UTC instants in minutes (the source
serialises them as ISO strings). -/
structure Row where
  location_id : String
  location_name : String
  reading_value : Option Rat
  reading_datetime : Int
  created_at : Int
deriving DecidableEq, Repr

/-- The record appended for index `i` and entry `item` in `build_rows`. -/
def mkRow (loc : Location) (day nowUtc : Int) (i : Nat) (item : Reading) : Row :=
  { location_id := loc.id
    location_name := loc.name
    reading_value := parse_reading item
    reading_datetime := sgtToUtc (localMinutes day i)
    created_at := nowUtc }

/-- The `for i, item in enumerate(raw)` loop of `build_rows`, started at index
`i`: each entry is skipped (`continue`) when its UTC instant exceeds
`nowUtc + 60` minutes (`now_plus_1h_utc`), and otherwise appended. -/
def buildRowsLoop (loc : Location) (day nowUtc : Int) : Nat → List Reading → List Row
  | _, [] => []
  | i, item :: rest =>
      (if sgtToUtc (localMinutes day i) > nowUtc + 60 then []
       else [mkRow loc day nowUtc i item]) ++ buildRowsLoop loc day nowUtc (i + 1) rest

/-- `build_rows` of supabase_common.py: a failed fetch returns `[]` after a
log warning; an empty decoded body returns `[]`; otherwise the per-minute
loop runs from index 0. `nowUtc` is `datetime.now(timezone.utc)` in minutes
at build time. -/
def build_rows (loc : Location) (day nowUtc : Int) (fetch : FetchResult) : List Row :=
  match fetch with
  | .failure => []
  | .ok raw => if raw.isEmpty then [] else buildRowsLoop loc day nowUtc 0 raw

/-- One upsert call issued by `upsert_rows`:
`supabase.table(table).upsert(chunk, on_conflict=...).execute()`. -/
structure StoreCall where
  table : String
  onConflict : String
  payload : List Row
deriving DecidableEq, Repr

/-- The chunking `for i in range(0, len(rows), CHUNK): rows[i:i+CHUNK]` of
`upsert_rows` with `CHUNK = 1000`. -/
def chunksOf1000 (l : List Row) : List (List Row) :=
  if h : l = [] then []
  else l.take 1000 :: chunksOf1000 (l.drop 1000)
termination_by l.length
decreasing_by
  have hl : 0 < l.length := List.length_pos.mpr h
  simp [List.length_drop]
  omega

/-- `upsert_rows` of supabase_common.py. The backing store is abstracted by
`store`: `store call = some k` models a response whose `data` is a list of
length `k` (then `inserted += k`), `store call = none` a non-list `data`
(then nothing is added). Returns the accumulated `inserted` count together
with the list of store calls issued, in order. -/
def upsert_rows (store : StoreCall → Option Nat) (table : String) (rows : List Row) :
    Nat × List StoreCall :=
  if rows.isEmpty then (0, [])
  else
    let calls := (chunksOf1000 rows).map
      (fun c => { table := table, onConflict := "location_id,reading_datetime", payload := c })
    (calls.foldl (fun acc call => acc + (store call).getD 0) 0, calls)

/-- Per-day batch of the day walkers: `build_rows` concatenated over
`LOCATIONS` in order (`day_rows.extend(...)` in both job scripts). `fetchOf`
gives the fetch outcome per device id for that day. -/
def dayRows (fetchOf : String → FetchResult) (day nowUtc : Int) : List Row :=
  (LOCATIONS.map (fun loc => build_rows loc day nowUtc (fetchOf loc.id))).flatten

/-- The `empty_streak` update of the backfill loop: reset to 0 on a day with a
non-zero affected count, incremented on a zero-affected day. -/
def streakStep {α : Type} (count : α → Nat) (s : Nat) (d : α) : Nat :=
  if count d = 0 then s + 1 else 0

/-- The backfill `while` loop of supabase_backfill_all.py (lines 55-75) over
an explicit list of remaining days: each day is processed (`count d` is its
affected count from build + upsert), the streak is updated, and the loop
breaks right after the day on which `empty_streak >= empty_chunks_to_stop`.
Returns the days processed, in order. -/
def walkLoop {α : Type} (count : α → Nat) (t : Nat) : Nat → List α → List α
  | _, [] => []
  | s, d :: rest =>
      let s' := streakStep count s d
      if t ≤ s' then [d] else d :: walkLoop count t s' rest

/-- Streak evolution over a day list without the walk: `some s'` when the
threshold is never reached and the final streak is `s'`, `none` as soon as
some day makes the streak reach the threshold. -/
def runStreak {α : Type} (count : α → Nat) (t : Nat) : Nat → List α → Option Nat
  | s, [] => some s
  | s, d :: rest =>
      let s' := streakStep count s d
      if t ≤ s' then none else runStreak count t s' rest

/-- Descending day range `[endDay, endDay - 1, ..., stopBefore]`, the days the
backfill `while cur >= stop_before` loop would visit without an early break. -/
def descRange (endDay stopBefore : Int) : List Int :=
  (List.range (endDay + 1 - stopBefore).toNat).map (fun (i : Nat) => endDay - (i : Int))

/-- The full backward walk of supabase_backfill_all.py `main`: start at
yesterday (`today - 1`), stop before `today - 365 * max_years`
(`stop_before`), initial streak 0. `dayAffected d` abstracts the affected
count that building and upserting day `d` reports. -/
def backfill (dayAffected : Int → Nat) (today : Int) (t : Nat) (years : Int) : List Int :=
  walkLoop dayAffected t 0 (descRange (today - 1) (today - 365 * years))

/-- Day number (days since 1970-01-01) of the Gregorian calendar date
`y-m-d`, the standard civil-from-date conversion; used to name concrete
calendar days like 2024-03-10 in theorem statements. -/
def daysFromCivil (y m d : Int) : Int :=
  let y' := if m ≤ 2 then y - 1 else y
  let era := (if 0 ≤ y' then y' else y' - 399) / 400
  let yoe := y' - era * 400
  let mp := (m + 9) % 12
  let doy := (153 * mp + 2) / 5 + d - 1
  let doe := yoe * 365 + yoe / 4 - yoe / 100 + doy
  era * 146097 + doe - 719468

/-- Effective empty-day threshold of supabase_backfill_all.py line 37:
`max(1, int(os.getenv("EMPTY_CHUNKS_TO_STOP", "2")))`, with the environment
value already parsed to an integer (`none` = variable unset, default "2"). -/
def empty_chunks_to_stop (env : Option Int) : Int := max 1 (env.getD 2)

/-- Effective years-back horizon of supabase_backfill_all.py line 38:
`max(1, int(os.getenv("BACKFILL_MAX_YEARS", "5")))`. -/
def max_years_cfg (env : Option Int) : Int := max 1 (env.getD 5)

/-- Number of minute indices of day `day` that pass the future-guard against
build time `now`: index `j` is kept iff `j < kbound day now`. -/
def kbound (day now : Int) : Nat := (now + 540 - day * 1440 + 1).toNat

/-- Expected chunk sizes for a batch of `n` records cut into consecutive
pieces of at most 1000. -/
def chunkSizes (n : Nat) : List Nat :=
  if n = 0 then [] else min n 1000 :: chunkSizes (n - 1000)
termination_by n
decreasing_by omega

/-! Row-builder lemmas. -/

/-- The future-guard predicate on index `j` is a cut-off at `kbound`. -/
theorem guard_iff (day now : Int) (j : Nat) :
    sgtToUtc (localMinutes day j) ≤ now + 60 ↔ j < kbound day now := by
  unfold kbound sgtToUtc localMinutes sgtOffsetMinutes
  omega

/-- The datetimes produced by the per-minute loop started at index `i` are
exactly the guarded index window `[i, min raw.length (kbound - i))`. -/
theorem buildRowsLoop_keys (loc : Location) (day now : Int) :
    ∀ (raw : List Reading) (i : Nat),
      (buildRowsLoop loc day now i raw).map Row.reading_datetime
        = (List.range' i (min raw.length (kbound day now - i))).map
            (fun j => sgtToUtc (localMinutes day j)) := by
  intro raw
  induction raw with
  | nil => intro i; simp [buildRowsLoop]
  | cons item rest ih =>
      intro i
      by_cases hg : sgtToUtc (localMinutes day i) > now + 60
      · have hk : kbound day now ≤ i := by
          have h := guard_iff day now i
          omega
        simp only [buildRowsLoop, if_pos hg, List.nil_append]
        rw [ih (i + 1)]
        have h1 : min rest.length (kbound day now - (i + 1)) = 0 := by omega
        have h2 : min (item :: rest).length (kbound day now - i) = 0 := by
          rw [List.length_cons]; omega
        have h4 : kbound day now - i = 0 := by omega
        simp [h1, h2, h4]
      · have hg' : sgtToUtc (localMinutes day i) ≤ now + 60 := by omega
        have hk : i < kbound day now := (guard_iff day now i).mp hg'
        simp only [buildRowsLoop, if_neg hg, List.singleton_append, List.map_cons]
        rw [ih (i + 1), List.length_cons]
        have h3 : min (rest.length + 1) (kbound day now - i)
            = min rest.length (kbound day now - (i + 1)) + 1 := by omega
        rw [h3, List.range'_succ, List.map_cons]
        rfl

/-- Datetimes of a successful `build_rows`: the prefix of minute indices
`0, 1, ..., min raw.length (kbound day now) - 1`, in order. -/
theorem build_rows_keys (loc : Location) (day now : Int) (raw : List Reading) :
    (build_rows loc day now (.ok raw)).map Row.reading_datetime
      = (List.range (min raw.length (kbound day now))).map
          (fun j => sgtToUtc (localMinutes day j)) := by
  unfold build_rows
  by_cases h : raw.isEmpty
  · rw [List.isEmpty_iff] at h
    subst h
    simp
  · simp only [h, Bool.false_eq_true, if_neg, not_false_iff]
    rw [buildRowsLoop_keys, List.range_eq_range', Nat.sub_zero]

/-- Every row the loop emits passed the future-guard. -/
theorem buildRowsLoop_le (loc : Location) (day now : Int) :
    ∀ (raw : List Reading) (i : Nat) (r : Row), r ∈ buildRowsLoop loc day now i raw →
      r.reading_datetime ≤ now + 60 := by
  intro raw
  induction raw with
  | nil => intro i r hr; simp [buildRowsLoop] at hr
  | cons item rest ih =>
      intro i r hr
      simp only [buildRowsLoop] at hr
      by_cases hg : sgtToUtc (localMinutes day i) > now + 60
      · rw [if_pos hg, List.nil_append] at hr
        exact ih (i + 1) r hr
      · rw [if_neg hg, List.singleton_append, List.mem_cons] at hr
        rcases hr with rfl | hr
        · simpa [mkRow] using le_of_not_lt hg
        · exact ih (i + 1) r hr

/-- Every row `build_rows` returns passed the future-guard. -/
theorem build_rows_le (loc : Location) (day now : Int) (fetch : FetchResult)
    (r : Row) (hr : r ∈ build_rows loc day now fetch) :
    r.reading_datetime ≤ now + 60 := by
  match fetch with
  | .failure => simp [build_rows] at hr
  | .ok raw =>
      unfold build_rows at hr
      by_cases h : raw.isEmpty
      · simp [h] at hr
      · simp only [h, Bool.false_eq_true, if_neg, not_false_iff] at hr
        exact buildRowsLoop_le loc day now raw 0 r hr

/-- Each guard-passing entry of the response yields a row carrying its parsed
value (placed from index `j`, reading the entry at offset `j - i`). -/
theorem buildRowsLoop_mem (loc : Location) (day now : Int) :
    ∀ (raw : List Reading) (i j : Nat), i ≤ j → j - i < raw.length →
      sgtToUtc (localMinutes day j) ≤ now + 60 →
      ∃ r ∈ buildRowsLoop loc day now i raw,
        r.reading_datetime = sgtToUtc (localMinutes day j) ∧
        r.reading_value = parse_reading (raw.getD (j - i) .absent) ∧
        r.location_id = loc.id := by
  intro raw
  induction raw with
  | nil => intro i j h1 h2 _; simp at h2
  | cons item rest ih =>
      intro i j hij hlen hg
      rcases Nat.eq_or_lt_of_le hij with rfl | hlt
      · have hg' : ¬ (sgtToUtc (localMinutes day i) > now + 60) := by omega
        refine ⟨mkRow loc day now i item, ?_, rfl, ?_, rfl⟩
        · simp [buildRowsLoop, hg']
        · simp [mkRow, Nat.sub_self]
      · have hlen' : j - (i + 1) < rest.length := by
          rw [List.length_cons] at hlen; omega
        obtain ⟨r, hr, hdt, hv, hid⟩ := ih (i + 1) j hlt hlen' hg
        refine ⟨r, ?_, hdt, ?_, hid⟩
        · simp only [buildRowsLoop]
          exact List.mem_append_right _ hr
        · have hji : j - i = (j - (i + 1)) + 1 := by omega
          rw [hji, List.getD_cons_succ]
          exact hv

/-- Filtering `range n` by a cut-off at `k` keeps exactly `range (min n k)`. -/
theorem range_filter_lt (n k : Nat) :
    (List.range n).filter (fun j => decide (j < k)) = List.range (min n k) := by
  induction n with
  | zero => simp
  | succ n ih =>
      rw [List.range_succ, List.filter_append, ih]
      by_cases h : n < k
      · have h1 : min (n + 1) k = min n k + 1 := by omega
        have h2 : min n k = n := by omega
        simp [h, h1, h2, List.range_succ]
      · have h1 : min (n + 1) k = min n k := by omega
        simp [h, h1]

/-- Any guard-passing index contributes its derived datetime to the output. -/
theorem build_rows_mem_keep (loc : Location) (day now : Int) (raw : List Reading)
    (i : Nat) (hi : i < raw.length)
    (hkeep : sgtToUtc (localMinutes day i) ≤ now + 60) :
    sgtToUtc (localMinutes day i)
        ∈ (build_rows loc day now (.ok raw)).map Row.reading_datetime := by
  rw [build_rows_keys]
  have hk : i < kbound day now := (guard_iff day now i).mp hkeep
  exact List.mem_map.mpr ⟨i, List.mem_range.mpr (by omega), rfl⟩

/-- C3: the Row Builder derives each record's instant as local midnight of
the target day plus the entry index in minutes, SGT wall clock, converted to
UTC by the fixed +08:00 offset: any guard-passing index `i` contributes a
record with exactly that datetime, and for day 2024-03-10 and index 90 the
local instant is 01:30 of that day, whose UTC equivalent is 2024-03-09
17:30. -/
theorem timestamp_derivation (loc : Location) (day now : Int) (raw : List Reading)
    (i : Nat) (hi : i < raw.length) (hkeep : sgtToUtc (localMinutes day i) ≤ now + 60) :
    sgtToUtc (localMinutes day i)
        ∈ (build_rows loc day now (.ok raw)).map Row.reading_datetime ∧
    localMinutes day i = day * 1440 + (i : Int) ∧
    localMinutes (daysFromCivil 2024 3 10) 90
      = daysFromCivil 2024 3 10 * 1440 + (1 * 60 + 30) ∧
    sgtToUtc (localMinutes (daysFromCivil 2024 3 10) 90)
      = daysFromCivil 2024 3 9 * 1440 + (17 * 60 + 30) := by
  exact ⟨build_rows_mem_keep loc day now raw i hi hkeep, rfl, by decide, by decide⟩

/-- Witness for C3 at a concrete input: day 0, build time 0, a one-entry
response; index 0 is kept and the 2024-03-10 instances evaluate. -/
theorem timestamp_derivation_witness :
    sgtToUtc (localMinutes 0 0)
        ∈ (build_rows ⟨"15490", "Singapore Sports School"⟩ 0 0
            (.ok [.absent])).map Row.reading_datetime ∧
    localMinutes 0 0 = 0 * 1440 + ((0 : Nat) : Int) ∧
    localMinutes (daysFromCivil 2024 3 10) 90
      = daysFromCivil 2024 3 10 * 1440 + (1 * 60 + 30) ∧
    sgtToUtc (localMinutes (daysFromCivil 2024 3 10) 90)
      = daysFromCivil 2024 3 9 * 1440 + (17 * 60 + 30) :=
  timestamp_derivation ⟨"15490", "Singapore Sports School"⟩ 0 0 [.absent] 0
    (by decide) (by decide)

/-- C5: an entry is excluded by the Row Builder exactly when its derived UTC
instant is more than 1 hour ahead of the build-time UTC clock: index `i` of
the response contributes its datetime to the output iff that datetime is at
or before `now + 60` minutes. -/
theorem future_guard (loc : Location) (day now : Int) (raw : List Reading)
    (i : Nat) (hi : i < raw.length) :
    sgtToUtc (localMinutes day i)
        ∈ (build_rows loc day now (.ok raw)).map Row.reading_datetime
      ↔ sgtToUtc (localMinutes day i) ≤ now + 60 := by
  constructor
  · intro hmem
    obtain ⟨r, hr, hdt⟩ := List.mem_map.mp hmem
    rw [← hdt]
    exact build_rows_le loc day now (.ok raw) r hr
  · intro hkeep
    exact build_rows_mem_keep loc day now raw i hi hkeep

/-- Witness for C5: for a two-entry response on day 0 with build time well in
the past (`now = -10000`), index 1 is excluded: its datetime is absent from
the output because it exceeds `now + 60`. -/
theorem future_guard_witness :
    (sgtToUtc (localMinutes 0 1)
        ∈ (build_rows ⟨"16034", "BLK 120 Serangoon North Ave 1"⟩ 0 (-10000)
            (.ok [.absent, .absent])).map Row.reading_datetime
      ↔ sgtToUtc (localMinutes 0 1) ≤ -10000 + 60) :=
  future_guard ⟨"16034", "BLK 120 Serangoon North Ave 1"⟩ 0 (-10000)
    [.absent, .absent] 1 (by decide)

/-- C4: entries with a missing, null or unparseable `reading` field are kept
as rows with a null `reading_value`, never dropped: the output length equals
the number of guard-passing indices of the input (input length minus only
the future-guard removals), and every guard-passing entry whose value fails
to parse still yields a row, with `reading_value = none`. -/
theorem null_preserved (loc : Location) (day now : Int) (raw : List Reading) :
    ((build_rows loc day now (.ok raw)).length
        = ((List.range raw.length).filter
            (fun j => decide (sgtToUtc (localMinutes day j) ≤ now + 60))).length) ∧
    (∀ i, i < raw.length → sgtToUtc (localMinutes day i) ≤ now + 60 →
        parse_reading (raw.getD i .absent) = none →
        ∃ r ∈ build_rows loc day now (.ok raw),
          r.reading_datetime = sgtToUtc (localMinutes day i) ∧
          r.reading_value = none) := by
  constructor
  · have hcongr : (List.range raw.length).filter
          (fun j => decide (sgtToUtc (localMinutes day j) ≤ now + 60))
        = (List.range raw.length).filter (fun j => decide (j < kbound day now)) := by
      refine List.filter_congr ?_
      intro j _
      simp only [decide_eq_decide]
      exact guard_iff day now j
    rw [hcongr, range_filter_lt]
    have hlen := congrArg List.length (build_rows_keys loc day now raw)
    simpa using hlen
  · intro i hi hkeep hnone
    have hne : raw.isEmpty = false := by
      cases raw with
      | nil => simp at hi
      | cons a l => rfl
    obtain ⟨r, hr, hdt, hv, _⟩ :=
      buildRowsLoop_mem loc day now raw 0 i (Nat.zero_le i) (by simpa using hi) hkeep
    refine ⟨r, ?_, hdt, ?_⟩
    · simpa [build_rows, hne] using hr
    · rw [hv]
      simpa using hnone

/-- Witness for C4: a response `[unparseable]` on day 0 with build time 0
yields a row with a null value at the derived datetime. -/
theorem null_preserved_witness :
    ∃ r ∈ build_rows ⟨"16041", "BLK 838 Hougang Central"⟩ 0 0
        (.ok [.unparseable]),
      r.reading_datetime = sgtToUtc (localMinutes 0 0) ∧ r.reading_value = none :=
  (null_preserved ⟨"16041", "BLK 838 Hougang Central"⟩ 0 0 [.unparseable]).2
    0 (by decide) (by decide) (by decide)

/-- Element `m` of the datetime prefix map. -/
theorem range_map_getD (f : Nat → Int) (k m : Nat) (hm : m < k) :
    ((List.range k).map f).getD m 0 = f m := by
  have hlen : m < ((List.range k).map f).length := by simpa using hm
  rw [List.getD_eq_getElem _ _ hlen, List.getElem_map, List.getElem_range]

/-- C9: the Row Builder's output is ordered: its datetimes are exactly the
UTC instants of minutes `0..k-1` of the day for some `k ≤ raw.length` (the
future-guard cuts only a suffix), they are strictly increasing, consecutive
rows are exactly one minute apart, and no two rows of one batch share the
`(location_id, reading_datetime)` upsert key. -/
theorem output_ordered (loc : Location) (day now : Int) (raw : List Reading) :
    ∃ k, k ≤ raw.length ∧
      (build_rows loc day now (.ok raw)).map Row.reading_datetime
        = (List.range k).map (fun j => sgtToUtc (localMinutes day j)) ∧
      List.Pairwise (· < ·)
        ((build_rows loc day now (.ok raw)).map Row.reading_datetime) ∧
      (∀ m, m + 1 < (build_rows loc day now (.ok raw)).length →
        ((build_rows loc day now (.ok raw)).map Row.reading_datetime).getD (m + 1) 0
          = ((build_rows loc day now (.ok raw)).map Row.reading_datetime).getD m 0
            + 1) ∧
      List.Pairwise
        (fun a b : Row =>
          ¬(a.location_id = b.location_id ∧ a.reading_datetime = b.reading_datetime))
        (build_rows loc day now (.ok raw)) := by
  refine ⟨min raw.length (kbound day now), Nat.min_le_left _ _,
    build_rows_keys loc day now raw, ?_, ?_, ?_⟩
  · rw [build_rows_keys]
    refine List.Pairwise.map _ ?_ (List.pairwise_lt_range _)
    intro a b hab
    simp only [sgtToUtc, localMinutes]
    omega
  · intro m hm
    have hmlen : m + 1 < min raw.length (kbound day now) := by
      have := congrArg List.length (build_rows_keys loc day now raw)
      simp only [List.length_map, List.length_range] at this
      omega
    rw [build_rows_keys, range_map_getD _ _ _ hmlen,
      range_map_getD _ _ _ (by omega)]
    simp only [sgtToUtc, localMinutes]
    omega
  · have hkeys : List.Pairwise (· < ·)
        ((build_rows loc day now (.ok raw)).map Row.reading_datetime) := by
      rw [build_rows_keys]
      refine List.Pairwise.map _ ?_ (List.pairwise_lt_range _)
      intro a b hab
      simp only [sgtToUtc, localMinutes]
      omega
    rw [List.pairwise_map] at hkeys
    refine hkeys.imp ?_
    intro a b hab hcontra
    exact absurd hcontra.2 (ne_of_lt hab)

/-- Witness for C9 at a concrete input: a two-entry response on day 0 with
build time 0. -/
theorem output_ordered_witness :
    ∃ k, k ≤ ([Reading.absent, Reading.absent] : List Reading).length ∧
      (build_rows ⟨"16045", "BLK 19 Balam Road"⟩ 0 0
          (.ok [Reading.absent, Reading.absent])).map Row.reading_datetime
        = (List.range k).map (fun j => sgtToUtc (localMinutes 0 j)) ∧
      List.Pairwise (· < ·)
        ((build_rows ⟨"16045", "BLK 19 Balam Road"⟩ 0 0
          (.ok [Reading.absent, Reading.absent])).map Row.reading_datetime) ∧
      (∀ m, m + 1 < (build_rows ⟨"16045", "BLK 19 Balam Road"⟩ 0 0
          (.ok [Reading.absent, Reading.absent])).length →
        ((build_rows ⟨"16045", "BLK 19 Balam Road"⟩ 0 0
          (.ok [Reading.absent, Reading.absent])).map Row.reading_datetime).getD
            (m + 1) 0
          = ((build_rows ⟨"16045", "BLK 19 Balam Road"⟩ 0 0
          (.ok [Reading.absent, Reading.absent])).map Row.reading_datetime).getD
            m 0 + 1) ∧
      List.Pairwise
        (fun a b : Row =>
          ¬(a.location_id = b.location_id ∧ a.reading_datetime = b.reading_datetime))
        (build_rows ⟨"16045", "BLK 19 Balam Road"⟩ 0 0
          (.ok [Reading.absent, Reading.absent])) :=
  output_ordered ⟨"16045", "BLK 19 Balam Road"⟩ 0 0 [Reading.absent, Reading.absent]

/-! Walk-loop lemmas. -/

/-- Every day the walk processes comes from the candidate day list. -/
theorem walkLoop_subset {α : Type} (count : α → Nat) (t : Nat) :
    ∀ (l : List α) (s : Nat) (x : α), x ∈ walkLoop count t s l → x ∈ l := by
  intro l
  induction l with
  | nil => intro s x hx; simp [walkLoop] at hx
  | cons d rest ih =>
      intro s x hx
      simp only [walkLoop] at hx
      by_cases hs : t ≤ streakStep count s d
      · simp [hs] at hx
        simp [hx]
      · simp [hs] at hx
        rcases hx with hx | hx
        · simp [hx]
        · exact List.mem_cons_of_mem _ (ih _ _ hx)

/-- Elements of `descRange endDay stopBefore` lie in `[stopBefore, endDay]`. -/
theorem descRange_bounds (endDay stopBefore : Int) (d : Int)
    (hd : d ∈ descRange endDay stopBefore) : stopBefore ≤ d ∧ d ≤ endDay := by
  unfold descRange at hd
  obtain ⟨i, hi, rfl⟩ := List.mem_map.mp hd
  have hi' := List.mem_range.mp hi
  omega

/-- Length of the candidate day range. -/
theorem descRange_length (endDay stopBefore : Int) :
    (descRange endDay stopBefore).length = (endDay + 1 - stopBefore).toNat := by
  rw [descRange, List.length_map, List.length_range]

/-- C1: in backward-walk mode, once the consecutive-empty-day streak reaches
the threshold `t ≥ 1`, the walk stops immediately: if the streak stays below
`t` throughout the prefix `pre` (ending at streak `s1`) and the day `z` then
makes it reach `t`, the walk over `pre ++ z :: post` processes exactly
`pre ++ [z]` — no day of `post` is ever built or upserted. -/
theorem backfill_stops_at_threshold {α : Type} (count : α → Nat) (t : Nat)
    (ht : 1 ≤ t) (s s1 : Nat) (pre : List α) (z : α) (post : List α)
    (hpre : runStreak count t s pre = some s1)
    (hz : t ≤ streakStep count s1 z) :
    walkLoop count t s (pre ++ z :: post) = pre ++ [z] := by
  clear ht
  induction pre generalizing s with
  | nil =>
      simp only [runStreak, Option.some.injEq] at hpre
      subst hpre
      simp [walkLoop, hz]
  | cons d rest ih =>
      simp only [runStreak] at hpre
      by_cases hs : t ≤ streakStep count s d
      · simp [hs] at hpre
      · simp only [hs, if_neg] at hpre
        simp only [List.cons_append, walkLoop, hs, if_neg]
        simp [ih _ hpre]

/-- Witness for C1 at the spec's example: affected counts `[5, 0, 0, 3]`
walked with threshold 2 process exactly `[5, 0, 0]` — the day with count 3 is
never processed. -/
theorem backfill_stops_at_threshold_witness :
    walkLoop id 2 0 [5, 0, 0, 3] = [5, 0, 0] :=
  backfill_stops_at_threshold id 2 (by decide) 0 1 [5, 0] 0 [3] (by decide) (by decide)

/-- C2: the backward walk never processes a day outside the horizon: every
day it processes lies between `today - 365 * years` (the `stop_before`
bound) and yesterday, regardless of the streak state. -/
theorem backfill_horizon (dayAffected : Int → Nat) (today : Int) (t : Nat)
    (years : Int) (d : Int) (hd : d ∈ backfill dayAffected today t years) :
    today - 365 * years ≤ d ∧ d ≤ today - 1 :=
  descRange_bounds _ _ _ (walkLoop_subset dayAffected t _ 0 d hd)

/-- Witness for C2: with every day empty and threshold 1, a 1-year walk from
`today = 100` processes day 99, which lies within the horizon. -/
theorem backfill_horizon_witness :
    100 - 365 * 1 ≤ (99 : Int) ∧ (99 : Int) ≤ 100 - 1 :=
  backfill_horizon (fun _ => 0) 100 1 1 99 (by decide)

/-- C8: an empty batch makes `upsert_rows` return 0 with no store call at
all: the backing store is never interacted with. -/
theorem upsert_rows_empty (store : StoreCall → Option Nat) (table : String) :
    upsert_rows store table [] = (0, []) := rfl

/-- C10: both backfill parameters are clamped at startup: an environment
value parsing to `n` yields effective value `max 1 n`, so threshold and
horizon never drop below 1, and the candidate day range always spans at
least 365 days. -/
theorem config_clamped (n today : Int) :
    empty_chunks_to_stop (some n) = max 1 n ∧
    max_years_cfg (some n) = max 1 n ∧
    1 ≤ empty_chunks_to_stop (some n) ∧
    1 ≤ max_years_cfg (some n) ∧
    365 ≤ (descRange (today - 1) (today - 365 * max_years_cfg (some n))).length := by
  refine ⟨rfl, rfl, le_max_left _ _, le_max_left _ _, ?_⟩
  rw [descRange_length]
  have hm : 1 ≤ max_years_cfg (some n) := le_max_left _ _
  generalize max_years_cfg (some n) = m at hm ⊢
  omega

/-! Upsert-writer lemmas. -/

/-- The chunking of `upsert_rows` produces pieces of the expected sizes. -/
theorem chunksOf1000_sizes (l : List Row) :
    (chunksOf1000 l).map List.length = chunkSizes l.length := by
  induction l using chunksOf1000.induct with
  | case1 => simp [chunksOf1000, chunkSizes]
  | case2 l hl ih =>
      have hlen : l.length ≠ 0 := by
        intro h0
        exact hl (List.eq_nil_of_length_eq_zero h0)
      rw [chunksOf1000, dif_neg hl, List.map_cons, ih, List.length_take,
        List.length_drop]
      conv_rhs => rw [chunkSizes.eq_def]
      rw [if_neg hlen, Nat.min_comm]

/-- Concatenating the chunks gives back the original batch. -/
theorem chunksOf1000_flatten (l : List Row) : (chunksOf1000 l).flatten = l := by
  induction l using chunksOf1000.induct with
  | case1 => simp [chunksOf1000]
  | case2 l hl ih =>
      rw [chunksOf1000, dif_neg hl, List.flatten_cons, ih, List.take_append_drop]

/-- Every expected chunk size is at most 1000. -/
theorem chunkSizes_le (n : Nat) : ∀ s ∈ chunkSizes n, s ≤ 1000 := by
  induction n using Nat.strong_induction_on with
  | _ n ih =>
      intro s hs
      rw [chunkSizes.eq_def] at hs
      by_cases h0 : n = 0
      · simp [h0] at hs
      · rw [if_neg h0, List.mem_cons] at hs
        rcases hs with rfl | hs
        · omega
        · exact ih (n - 1000) (by omega) s hs

/-- There are exactly `ceil(n / 1000)` chunks. -/
theorem chunkSizes_length (n : Nat) : (chunkSizes n).length = (n + 999) / 1000 := by
  induction n using Nat.strong_induction_on with
  | _ n ih =>
      rw [chunkSizes.eq_def]
      by_cases h0 : n = 0
      · simp [h0]
      · rw [if_neg h0, List.length_cons, ih (n - 1000) (by omega)]
        omega

/-- Folding the per-call affected counts accumulates their sum. -/
theorem foldl_add_sum (g : StoreCall → Nat) :
    ∀ (l : List StoreCall) (a : Nat),
      l.foldl (fun acc c => acc + g c) a = a + (l.map g).sum := by
  intro l
  induction l with
  | nil => intro a; simp
  | cons c rest ih =>
      intro a
      rw [List.foldl_cons, ih, List.map_cons, List.sum_cons]
      omega

/-- C6: on a non-empty batch the Upsert Writer issues exactly
`ceil(n / 1000)` store calls, consecutive chunks of at most 1000 records
each, every call keyed on `(location_id, reading_datetime)` against the
requested table, the chunks concatenate back to the batch in order, and the
returned count is the sum of the per-call affected counts. -/
theorem upsert_chunking (store : StoreCall → Option Nat) (table : String)
    (rows : List Row) (hne : rows ≠ []) :
    (upsert_rows store table rows).2.length = (rows.length + 999) / 1000 ∧
    (upsert_rows store table rows).2.map (fun c => c.payload.length)
      = chunkSizes rows.length ∧
    (∀ c ∈ (upsert_rows store table rows).2,
      c.onConflict = "location_id,reading_datetime" ∧ c.table = table ∧
      c.payload.length ≤ 1000) ∧
    ((upsert_rows store table rows).2.map (fun c => c.payload)).flatten = rows ∧
    (upsert_rows store table rows).1
      = ((upsert_rows store table rows).2.map (fun c => (store c).getD 0)).sum := by
  have hempty : rows.isEmpty = false := by
    cases rows with
    | nil => exact absurd rfl hne
    | cons a l => rfl
  have hsizes : (chunksOf1000 rows).map
      ((fun c => c.payload.length) ∘ (fun c =>
        ({ table := table, onConflict := "location_id,reading_datetime",
           payload := c } : StoreCall)))
      = chunkSizes rows.length := by
    rw [show ((fun c : StoreCall => c.payload.length) ∘ (fun c : List Row =>
        ({ table := table, onConflict := "location_id,reading_datetime",
           payload := c } : StoreCall))) = List.length from rfl]
    exact chunksOf1000_sizes rows
  simp only [upsert_rows, hempty, Bool.false_eq_true, if_neg, not_false_iff]
  refine ⟨?_, ?_, ?_, ?_, ?_⟩
  · rw [List.length_map]
    have := congrArg List.length (chunksOf1000_sizes rows)
    rw [List.length_map, chunkSizes_length] at this
    exact this
  · rw [List.map_map]
    exact hsizes
  · intro c hc
    obtain ⟨chunk, hchunk, rfl⟩ := List.mem_map.mp hc
    refine ⟨rfl, rfl, ?_⟩
    have : chunk.length ∈ chunkSizes rows.length := by
      rw [← chunksOf1000_sizes]
      exact List.mem_map.mpr ⟨chunk, hchunk, rfl⟩
    exact chunkSizes_le rows.length _ this
  · rw [List.map_map]
    rw [show ((fun c : StoreCall => c.payload) ∘ (fun c : List Row =>
        ({ table := table, onConflict := "location_id,reading_datetime",
           payload := c } : StoreCall))) = id from rfl]
    rw [List.map_id]
    exact chunksOf1000_flatten rows
  · exact (foldl_add_sum _ _ 0).trans (by omega)

/-- A concrete row used by witnesses. -/
def rowX : Row := mkRow ⟨"15490", "Singapore Sports School"⟩ 0 0 0 .absent

/-- Witness for C6: a batch of 2500 records is cut into exactly 3 calls of
sizes 1000, 1000 and 500. -/
theorem upsert_chunking_witness :
    (upsert_rows (fun c => some c.payload.length) "meter_readings"
        (List.replicate 2500 rowX)).2.length = 3 ∧
    (upsert_rows (fun c => some c.payload.length) "meter_readings"
        (List.replicate 2500 rowX)).2.map (fun c => c.payload.length)
      = [1000, 1000, 500] := by
  have h := upsert_chunking (fun c => some c.payload.length) "meter_readings"
    (List.replicate 2500 rowX)
    (List.length_pos.mp (by rw [List.length_replicate]; omega))
  refine ⟨?_, ?_⟩
  · have h1 := h.1
    rw [List.length_replicate] at h1
    omega
  · have h2 := h.2.1
    rw [h2, List.length_replicate]
    simp [chunkSizes]

/-! Day-walker fault isolation. -/

/-- C7: a failed fetch for one device is absorbed: `build_rows` returns `[]`
for it, and the day batch is exactly the concatenation, in device order, of
what the remaining devices produce — their rows do not depend on the failing
device in any way. -/
theorem fetch_failure_isolated (day now : Int) (fetchOf fetchOf' : String → FetchResult)
    (loc0 : String) (hfail : fetchOf loc0 = .failure)
    (hagree : ∀ s, s ≠ loc0 → fetchOf s = fetchOf' s) :
    (∀ loc : Location, loc.id = loc0 → build_rows loc day now (fetchOf loc.id) = []) ∧
    dayRows fetchOf day now
      = (LOCATIONS.map (fun l =>
          if l.id = loc0 then [] else build_rows l day now (fetchOf' l.id))).flatten := by
  constructor
  · intro loc hl
    rw [hl, hfail]
    rfl
  · unfold dayRows
    congr 1
    refine List.map_congr_left ?_
    intro l _
    by_cases h : l.id = loc0
    · rw [if_pos h, h, hfail]
      rfl
    · rw [if_neg h, hagree l.id h]

/-- Witness for C7: device 15490 fails, all others return an empty body; the
day batch equals the per-device concatenation with 15490 contributing
nothing. -/
theorem fetch_failure_isolated_witness :
    (∀ loc : Location, loc.id = "15490" →
      build_rows loc 0 0
        ((fun s => if s = "15490" then FetchResult.failure else .ok []) loc.id)
        = []) ∧
    dayRows (fun s => if s = "15490" then FetchResult.failure else .ok []) 0 0
      = (LOCATIONS.map (fun l =>
          if l.id = "15490" then []
          else build_rows l 0 0 ((fun _ => FetchResult.ok []) l.id))).flatten :=
  fetch_failure_isolated 0 0
    (fun s => if s = "15490" then FetchResult.failure else .ok [])
    (fun _ => FetchResult.ok []) "15490" (by simp)
    (fun s hs => by simp [hs])

end NoiseETL
